import Mathlib

/-!
# Verification of the aDDM repository's probability engine

Shallow embedding, over the rationals, of the drift-diffusion likelihood
engine and trial simulator of `ddm.py` (`get_trial_likelihood`,
`run_simulations`) and of the sequential grid posterior update of
`ddm_test.py` (`main`, lines 57-91; the same update loop appears in
`individual_posteriors.py` and `addm_test_individual.py`).

Machine floats are modelled by exact rationals; the Gaussian density and
cumulative distribution supplied by `scipy.stats.norm` are modelled by an
abstract `Kernel` whose relevant analytic facts (nonnegativity, bounds,
evenness at mean zero) enter as hypotheses where a claim needs them.
Python's float division is total and yields `nan` on `0/0`; rational
division in Lean yields the junk value `0` there — every theorem that
touches a division either assumes the divisor nonzero or treats the
degenerate branch explicitly.
-/

namespace ADDM

/-- Error taxonomy of the spec (§7) together with `indexError`, the Python
built-in `IndexError` that the source can actually raise (out-of-range
access on an empty numpy array).  The source defines no error classes of
its own, so `invalidTrial` and `invalidParameter` are never produced by the
embedded code. -/
inductive DDMError where
  | invalidTrial
  | invalidParameter
  | indexError
  deriving DecidableEq

/-- The Gaussian transition kernel used by `get_trial_likelihood`:
`pdf x mean sigma` models `scipy.stats.norm.pdf(x, mean, sigma)` and
`cdf` models `scipy.stats.norm.cdf`. -/
structure Kernel where
  pdf : ℚ → ℚ → ℚ → ℚ
  cdf : ℚ → ℚ → ℚ → ℚ

/-- Barrier decay rate; hard-coded to `0` in `ddm.py` line 50
("decay = 0 means barriers are constant"). -/
def decay : ℚ := 0

/-- Upper barrier magnitude at time step `t` (`ddm.py` lines 51, 54:
`barrier / (1 + decay * t)`; the direct assignment for `t = 0` agrees
since `decay = 0`). -/
def barrierUp (barrier : ℚ) (t : ℕ) : ℚ := barrier / (1 + decay * t)

/-- Lower barrier magnitude at time step `t` (`ddm.py` lines 52, 55). -/
def barrierDown (barrier : ℚ) (t : ℕ) : ℚ := (-barrier) / (1 + decay * t)

/-- Size of `np.arange(-barrier, barrier + stateStep, stateStep)`
(`ddm.py` line 58): `max 0 ⌈(stop - start) / step⌉` for positive step. -/
def numStates (barrier stateStep : ℚ) : ℕ :=
  (⌈(2 * barrier + stateStep) / stateStep⌉).toNat

/-- The `k`-th entry of `np.arange(-barrier, barrier + stateStep, stateStep)`
before zero-snapping. -/
def rawState (barrier stateStep : ℚ) (k : ℕ) : ℚ := -barrier + k * stateStep

/-- Zero-snapping of near-zero grid values (`ddm.py` line 59:
`states[(states < 0.001) & (states > -0.001)] = 0`). -/
def snap (x : ℚ) : ℚ := if -(1/1000) < x ∧ x < 1/1000 then 0 else x

/-- The `k`-th grid state after zero-snapping. -/
def state (barrier stateStep : ℚ) (k : ℕ) : ℚ := snap (rawState barrier stateStep k)

/-- Initial probability mass (`ddm.py` lines 63-65): `1` at the zero state,
then zeroed at states strictly outside `[barrierDown[0], barrierUp[0]]`. -/
def initMass (barrier stateStep : ℚ) (k : ℕ) : ℚ :=
  if state barrier stateStep k = 0 ∧
      ¬(barrierUp barrier 0 < state barrier stateStep k ∨
        state barrier stateStep k < barrierDown barrier 0) then 1 else 0

/-- Total mass of a state vector over the grid. -/
def massSum (barrier stateStep : ℚ) (P : ℕ → ℚ) : ℚ :=
  ∑ k ∈ Finset.range (numStates barrier stateStep), P k

/-- Un-renormalized propagated mass at destination state `i` for time step `t`
(`ddm.py` lines 94-97): the kernel row-dot-product scaled by `stateStep`,
with destinations at or beyond a barrier zeroed. -/
def prNew (K : Kernel) (barrier stateStep mean sigma : ℚ) (t : ℕ)
    (P : ℕ → ℚ) (i : ℕ) : ℚ :=
  if barrierUp barrier t ≤ state barrier stateStep i ∨
      state barrier stateStep i ≤ barrierDown barrier t then 0
  else stateStep * ∑ j ∈ Finset.range (numStates barrier stateStep),
    K.pdf (state barrier stateStep i - state barrier stateStep j) mean sigma * P j

/-- Un-renormalized mass crossing the upper barrier at time step `t`
(`ddm.py` lines 103-104). -/
def tempUp (K : Kernel) (barrier stateStep mean sigma : ℚ) (t : ℕ)
    (P : ℕ → ℚ) : ℚ :=
  ∑ i ∈ Finset.range (numStates barrier stateStep),
    P i * (1 - K.cdf (barrierUp barrier t - state barrier stateStep i) mean sigma)

/-- Un-renormalized mass crossing the lower barrier at time step `t`
(`ddm.py` lines 105-106). -/
def tempDown (K : Kernel) (barrier stateStep mean sigma : ℚ) (t : ℕ)
    (P : ℕ → ℚ) : ℚ :=
  ∑ i ∈ Finset.range (numStates barrier stateStep),
    P i * K.cdf (barrierDown barrier t - state barrier stateStep i) mean sigma

/-- The renormalization denominator `sumCurrent` (`ddm.py` line 110). -/
def sumCurrent (K : Kernel) (barrier stateStep mean sigma : ℚ) (t : ℕ)
    (P : ℕ → ℚ) : ℚ :=
  massSum barrier stateStep (prNew K barrier stateStep mean sigma t P) +
    tempUp K barrier stateStep mean sigma t P +
    tempDown K barrier stateStep mean sigma t P

/-- Probability-mass vector and per-step crossing masses. -/
structure LoopState where
  mass : ℕ → ℚ
  up : ℚ
  down : ℚ

/-- One iteration of the propagation loop at time index `t`
(`ddm.py` lines 86-119): propagate, compute crossings, and rescale all
three quantities by the single factor `sumIn / sumCurrent`
(lines 108-113). -/
def ddmStep (K : Kernel) (barrier stateStep mean sigma : ℚ) (t : ℕ)
    (P : ℕ → ℚ) : LoopState :=
  ⟨fun i => prNew K barrier stateStep mean sigma t P i * massSum barrier stateStep P /
      sumCurrent K barrier stateStep mean sigma t P,
    tempUp K barrier stateStep mean sigma t P * massSum barrier stateStep P /
      sumCurrent K barrier stateStep mean sigma t P,
    tempDown K barrier stateStep mean sigma t P * massSum barrier stateStep P /
      sumCurrent K barrier stateStep mean sigma t P⟩

/-- The loop state after `t` iterations; index `0` is the initial state
(`probUpCrossing` and `probDownCrossing` start as zero arrays, line 68-69,
and index `0` is never written). -/
def loopState (K : Kernel) (barrier stateStep mean sigma : ℚ) : ℕ → LoopState
  | 0 => ⟨initMass barrier stateStep, 0, 0⟩
  | t + 1 => ddmStep K barrier stateStep mean sigma (t + 1)
      (loopState K barrier stateStep mean sigma t).mass

/-- Likelihood selection from the terminal crossing masses
(`ddm.py` lines 127-133): upper barrier for choice `-1`, lower for `+1`,
`0` whenever the selected value is not strictly positive. -/
def likSelect (choice : Int) (u dn : ℚ) : ℚ :=
  if choice = -1 then (if 0 < u then u else 0)
  else if choice = 1 then (if 0 < dn then dn else 0)
  else 0

/-- `ddm.py` `get_trial_likelihood`.  `maxTime = RT // timeStep` (line 47).
When `maxTime = 0` the barrier arrays are empty and line 65
(`barrierUp[0]`) raises a Python `IndexError`, modelled as
`Except.error .indexError`.  Otherwise the trial's likelihood is selected
from the crossing masses at the final loop index `maxTime - 1`. -/
def getTrialLikelihood (K : Kernel) (RT : ℕ) (choice : Int)
    (valueLeft valueRight d sigma : ℚ) (timeStep : ℕ)
    (stateStep barrier : ℚ) : Except DDMError ℚ :=
  if RT / timeStep = 0 then .error .indexError
  else
    .ok (likSelect choice
      (loopState K barrier stateStep (d * (valueLeft - valueRight)) sigma
        (RT / timeStep - 1)).up
      (loopState K barrier stateStep (d * (valueLeft - valueRight)) sigma
        (RT / timeStep - 1)).down)

/-- Cumulative up-crossing mass through time step `t`. -/
def cumUp (K : Kernel) (barrier stateStep mean sigma : ℚ) (t : ℕ) : ℚ :=
  ∑ u ∈ Finset.range (t + 1), (loopState K barrier stateStep mean sigma u).up

/-- Cumulative down-crossing mass through time step `t`. -/
def cumDown (K : Kernel) (barrier stateStep mean sigma : ℚ) (t : ℕ) : ℚ :=
  ∑ u ∈ Finset.range (t + 1), (loopState K barrier stateStep mean sigma u).down

/-- A concrete computable kernel used to instantiate witnesses. -/
def constKernel : Kernel := ⟨fun _ _ _ => 1, fun _ _ _ => 1/2⟩

/-! ## Trial simulator (`ddm.py` `run_simulations`) -/

/-- Running evidence (`RDV`) after `t` sampled increments: the loop starts at
`RDV = 0` (line 201) and adds one normal draw per step (line 216); the draws
are modelled as an input stream `eps`. -/
def RDV (eps : ℕ → ℚ) (t : ℕ) : ℚ := ∑ i ∈ Finset.range t, eps i

/-- The `while True` trial loop of `run_simulations` (`ddm.py` lines 203-218),
truncated after `fuel + 1` barrier checks: `some (RT, choice)` when a barrier
is reached (lines 205-213: `RT = time * timeStep`, choice `-1` at the upper
barrier checked first, `+1` at the lower), `none` when the loop is still
running after the last allowed check.  The source enforces no iteration cap
and defines no timeout error. -/
def simTrial (barrier : ℚ) (timeStep : ℕ) (eps : ℕ → ℚ) :
    ℕ → ℕ → Option (ℕ × Int)
  | t, 0 =>
    if barrier ≤ RDV eps t then some (t * timeStep, -1)
    else if RDV eps t ≤ -barrier then some (t * timeStep, 1)
    else none
  | t, fuel + 1 =>
    if barrier ≤ RDV eps t then some (t * timeStep, -1)
    else if RDV eps t ≤ -barrier then some (t * timeStep, 1)
    else simTrial barrier timeStep eps (t + 1) fuel

/-! ## Grid posterior update (`ddm_test.py` lines 57-91) -/

/-- Uniform posterior over `numModels` candidate models
(`ddm_test.py` line 75: `posteriors[model.params] = 1. / numModels`). -/
def initPosterior (numModels : ℕ) : List ℚ :=
  List.replicate numModels (1 / (numModels : ℚ))

/-- The per-trial normalizing denominator (`ddm_test.py` lines 80-83):
sum over models of prior times likelihood. -/
def trialDenominator (posteriors likelihoods : List ℚ) : ℚ :=
  (List.zipWith (fun p l => p * l) posteriors likelihoods).sum

/-- The per-trial posterior update (`ddm_test.py` lines 78-91): skipped
(`continue`) when the denominator is `0`, otherwise
`posterior = likelihood * prior / denominator` for every model. -/
def posteriorUpdate (posteriors likelihoods : List ℚ) : List ℚ :=
  if trialDenominator posteriors likelihoods = 0 then posteriors
  else List.zipWith
    (fun p l => l * p / trialDenominator posteriors likelihoods)
    posteriors likelihoods

/-! ## C4: zero-denominator trials are a defined no-op -/

/-- C4: in the posterior update, a trial whose normalizing denominator (the
sum over models of prior times likelihood) is exactly `0` is skipped
entirely: every model's posterior value is left unchanged, and no error is
raised (the update is a total function). -/
theorem zero_denominator_update_is_noop (posteriors likelihoods : List ℚ)
    (h : trialDenominator posteriors likelihoods = 0) :
    posteriorUpdate posteriors likelihoods = posteriors := by
  simp [posteriorUpdate, h]

/-- Witness for C4: two models with prior `1/2` each, both assigning
likelihood `0` to the trial. -/
theorem zero_denominator_update_is_noop_witness :
    trialDenominator [1/2, 1/2] [0, 0] = 0 ∧
      posteriorUpdate [1/2, 1/2] [0, 0] = [1/2, 1/2] :=
  ⟨by norm_num [trialDenominator],
    zero_denominator_update_is_noop [1/2, 1/2] [0, 0]
      (by norm_num [trialDenominator])⟩

/-! ## C5: uniform prior and normalization of non-skipped updates -/

/-- The sum of a zipWith-update equals the corresponding product-sum divided
by the constant denominator. -/
lemma zipWith_update_sum (D : ℚ) :
    ∀ posteriors likelihoods : List ℚ,
      (List.zipWith (fun p l => l * p / D) posteriors likelihoods).sum =
        (List.zipWith (fun p l => p * l) posteriors likelihoods).sum / D := by
  intro posteriors
  induction posteriors with
  | nil => intro likelihoods; simp
  | cons p ps ih =>
    intro likelihoods
    cases likelihoods with
    | nil => simp
    | cons l ls =>
      simp only [List.zipWith_cons_cons, List.sum_cons, ih ls, add_div,
        mul_comm l p]

/-- C5: the posterior over `numModels` candidate models starts uniform at
`1/numModels` and sums to `1`; after every non-skipped per-trial update
(`posterior = likelihood * prior / denominator`), the posterior values again
sum to exactly `1`. -/
theorem posterior_normalization (numModels : ℕ)
    (posteriors likelihoods : List ℚ) :
    (0 < numModels → (initPosterior numModels).sum = 1) ∧
      (trialDenominator posteriors likelihoods ≠ 0 →
        (posteriorUpdate posteriors likelihoods).sum = 1) := by
  constructor
  · intro hn
    have hne : (numModels : ℚ) ≠ 0 := Nat.cast_ne_zero.mpr hn.ne'
    simp only [initPosterior, List.sum_replicate, nsmul_eq_mul, mul_one_div]
    exact div_self hne
  · intro hD
    rw [posteriorUpdate, if_neg hD, zipWith_update_sum]
    exact div_self hD

/-- Witness for C5: nine models (the 3×3 grid of `ddm_test.py`) start
uniform with total mass `1`; a non-skipped two-model update renormalizes to
total mass `1`. -/
theorem posterior_normalization_witness :
    (initPosterior 9).sum = 1 ∧
      (posteriorUpdate [1/2, 1/2] [1/4, 3/4]).sum = 1 :=
  ⟨(posterior_normalization 9 [] []).1 (by norm_num),
    (posterior_normalization 9 [1/2, 1/2] [1/4, 3/4]).2
      (by norm_num [trialDenominator])⟩

/-! ## Shared lemmas: constant barriers and degenerate (all-zero) runs -/

/-- Evaluation rule for the grid size: bracket the arange length ratio between
two consecutive integers. -/
lemma numStates_eq_of (b s : ℚ) (z : ℤ) (h1 : (z : ℚ) - 1 < (2 * b + s) / s)
    (h2 : (2 * b + s) / s ≤ (z : ℚ)) : numStates b s = z.toNat := by
  rw [numStates]
  congr 1
  exact Int.ceil_eq_iff.mpr ⟨h1, h2⟩

lemma barrierUp_eq (b : ℚ) (t : ℕ) : barrierUp b t = b := by
  simp [barrierUp, decay]

lemma barrierDown_eq (b : ℚ) (t : ℕ) : barrierDown b t = -b := by
  simp [barrierDown, decay]

/-- A propagation step applied to a grid-wise zero mass vector keeps the mass
vector and both crossing masses at zero (everything is rescaled by
`sumIn = 0`). -/
lemma ddmStep_of_allZero (K : Kernel) (b s mean sigma : ℚ) (t : ℕ)
    (P : ℕ → ℚ) (h : ∀ k ∈ Finset.range (numStates b s), P k = 0) :
    (∀ k, (ddmStep K b s mean sigma t P).mass k = 0) ∧
      (ddmStep K b s mean sigma t P).up = 0 ∧
      (ddmStep K b s mean sigma t P).down = 0 := by
  have hsum : massSum b s P = 0 := Finset.sum_eq_zero h
  refine ⟨fun k => ?_, ?_, ?_⟩ <;> simp [ddmStep, hsum]

/-- If the initial mass vector is identically zero on the grid, every later
loop state is zero as well. -/
lemma loopState_of_initZero (K : Kernel) (b s mean sigma : ℚ)
    (h : ∀ k ∈ Finset.range (numStates b s), initMass b s k = 0) :
    ∀ t, (∀ k ∈ Finset.range (numStates b s),
        (loopState K b s mean sigma t).mass k = 0) ∧
      (loopState K b s mean sigma t).up = 0 ∧
      (loopState K b s mean sigma t).down = 0 := by
  intro t
  induction t with
  | zero => exact ⟨h, rfl, rfl⟩
  | succ t ih =>
    have hstep := ddmStep_of_allZero K b s mean sigma (t + 1) _ ih.1
    exact ⟨fun k _ => hstep.1 k, hstep.2.1, hstep.2.2⟩

/-- A run whose initial mass vector is identically zero on the grid returns
likelihood `0` (and no error) for every choice. -/
lemma getTrialLikelihood_of_initZero (K : Kernel) (RT : ℕ) (choice : Int)
    (vL vR d sigma : ℚ) (ts : ℕ) (s b : ℚ) (hmax : RT / ts ≠ 0)
    (h : ∀ k ∈ Finset.range (numStates b s), initMass b s k = 0) :
    getTrialLikelihood K RT choice vL vR d sigma ts s b = .ok 0 := by
  have hz := loopState_of_initZero K b s (d * (vL - vR)) sigma h (RT / ts - 1)
  simp [getTrialLikelihood, hmax, likSelect, hz.2.1, hz.2.2]

/-! ## C3: degenerate trials (`maxTime < 1`) -/

/-- Counterexample to C3: at `RT = 0` (so `maxTime = 0 < 1`) the function does
fail, but with the Python `IndexError` raised at `ddm.py` line 65 when the
empty array `barrierUp` is indexed — not with an `InvalidTrial` error, which
the source never defines nor raises. -/
theorem invalid_trial_not_raised_cx :
    getTrialLikelihood constKernel 0 (-1) 0 0 0 1 10 (1/10) 1 =
        Except.error DDMError.indexError ∧
      Except.error DDMError.indexError ≠
        (Except.error DDMError.invalidTrial : Except DDMError ℚ) := by
  constructor
  · simp [getTrialLikelihood]
  · simp

/-- C3 amended: for every trial whose reaction time yields `maxTime < 1`
(in particular `RT = 0`), `get_trial_likelihood` fails — it does not return
`0` — but the failure is an uncaught index-out-of-range error
(`barrierUp[0]` on an empty array, `ddm.py` line 65), not a defined
`InvalidTrial` error. -/
theorem degenerate_trial_index_error (K : Kernel) (RT : ℕ) (choice : Int)
    (vL vR d sigma : ℚ) (ts : ℕ) (s b : ℚ) (h : RT / ts = 0) :
    getTrialLikelihood K RT choice vL vR d sigma ts s b =
      Except.error DDMError.indexError := by
  simp [getTrialLikelihood, h]

/-- Witness for C3 (amended): `RT = 0`, `timeStep = 10`. -/
theorem degenerate_trial_index_error_witness :
    (0 / 10 : ℕ) = 0 ∧
      getTrialLikelihood constKernel 0 1 0 0 0 1 10 (1/10) 1 =
        Except.error DDMError.indexError :=
  ⟨rfl, degenerate_trial_index_error constKernel 0 1 0 0 0 1 10 (1/10) 1 rfl⟩

/-! ## C6: parameter validation -/

/-- Counterexample to C6: with `barrier = -1 ≤ 0` (default `stateStep = 0.1`,
`timeStep = 10`, `RT = 20`) no `InvalidParameter` error is raised:
`np.arange(1, -0.9, 0.1)` is empty, all masses stay zero (numpy's `0/0`
yields `nan`, and `nan > 0` is false), and the call returns likelihood `0`. -/
theorem invalid_parameter_not_raised_cx :
    getTrialLikelihood constKernel 20 (-1) 1 2 (3/500) (2/25) 10 (1/10) (-1) =
        Except.ok 0 ∧
      (Except.ok (0 : ℚ) : Except DDMError ℚ) ≠
        Except.error DDMError.invalidParameter := by
  constructor
  · apply getTrialLikelihood_of_initZero _ _ _ _ _ _ _ _ _ _ (by norm_num)
    have hn : numStates (-1) (1/10) = 0 := by
      rw [numStates_eq_of (-1) (1/10) (-19) (by norm_num) (by norm_num)]
      rfl
    rw [hn]
    simp
  · simp

/-- C6 amended: `get_trial_likelihood` performs no parameter validation at
all and never raises an `InvalidParameter` error: for any `barrier < 0`
(with a trial long enough to enter the engine) it silently returns
likelihood `0`, because the initial mass is zeroed outside the (inverted)
barriers; non-partitioning `stateStep` likewise proceeds without error (see
the C10 theorem). -/
theorem no_invalid_parameter_check (K : Kernel) (RT : ℕ) (choice : Int)
    (vL vR d sigma : ℚ) (ts : ℕ) (s b : ℚ) (hb : b < 0)
    (hmax : RT / ts ≠ 0) :
    getTrialLikelihood K RT choice vL vR d sigma ts s b = .ok 0 := by
  apply getTrialLikelihood_of_initZero _ _ _ _ _ _ _ _ _ _ hmax
  intro k _
  rw [initMass, if_neg]
  rintro ⟨hz, hin⟩
  exact hin (Or.inl (by rw [barrierUp_eq, hz]; exact hb))

/-- Witness for C6 (amended): `barrier = -2`, `RT = 10`, `timeStep = 10`. -/
theorem no_invalid_parameter_check_witness :
    ((-2 : ℚ) < 0) ∧ (10 / 10 : ℕ) ≠ 0 ∧
      getTrialLikelihood constKernel 10 1 0 0 0 1 10 (1/10) (-2) =
        Except.ok 0 :=
  ⟨by norm_num, by norm_num,
    no_invalid_parameter_check constKernel 10 1 0 0 0 1 10 (1/10) (-2)
      (by norm_num) (by norm_num)⟩

/-! ## C10: unguarded 0/0 renormalization when no grid state is zero -/

/-- If the mass vector is zero across the grid, so is each un-renormalized
propagated mass. -/
lemma prNew_of_allZero (K : Kernel) (b s mean sigma : ℚ) (t : ℕ)
    (P : ℕ → ℚ) (h : ∀ j ∈ Finset.range (numStates b s), P j = 0) (i : ℕ) :
    prNew K b s mean sigma t P i = 0 := by
  rw [prNew]
  split
  · rfl
  · rw [Finset.sum_eq_zero fun j hj => by rw [h j hj, mul_zero], mul_zero]

/-- If the mass vector is zero across the grid, the renormalization
denominator `sumCurrent` is `0` as well. -/
lemma sumCurrent_of_allZero (K : Kernel) (b s mean sigma : ℚ) (t : ℕ)
    (P : ℕ → ℚ) (h : ∀ j ∈ Finset.range (numStates b s), P j = 0) :
    sumCurrent K b s mean sigma t P = 0 := by
  rw [sumCurrent, massSum,
    Finset.sum_eq_zero fun j hj => prNew_of_allZero K b s mean sigma t P h j,
    tempUp, Finset.sum_eq_zero fun i hi => by rw [h i hi, zero_mul],
    tempDown, Finset.sum_eq_zero fun i hi => by rw [h i hi, zero_mul]]
  norm_num

/-- C10: when no grid state equals exactly `0` after snapping (possible, e.g.,
when `stateStep` does not evenly partition `2*barrier`), the initial
`ProbabilityMass` is all zeros, and at the first propagation step the
renormalization divides `sumIn = 0` by `sumCurrent = 0` with no zero guard
(`ddm.py` lines 108-113; in numpy the `0/0` yields `nan`, modelled here by
the junk value `0`); the call then completes with likelihood `0` rather than
raising a defined error. -/
theorem renormalization_zero_over_zero (K : Kernel) (RT : ℕ) (choice : Int)
    (vL vR d sigma : ℚ) (ts : ℕ) (s b : ℚ)
    (hnz : ∀ k ∈ Finset.range (numStates b s), state b s k ≠ 0)
    (hmax : RT / ts ≠ 0) :
    (∀ k ∈ Finset.range (numStates b s), initMass b s k = 0) ∧
      massSum b s (initMass b s) = 0 ∧
      sumCurrent K b s (d * (vL - vR)) sigma 1 (initMass b s) = 0 ∧
      getTrialLikelihood K RT choice vL vR d sigma ts s b = .ok 0 := by
  have h0 : ∀ k ∈ Finset.range (numStates b s), initMass b s k = 0 := by
    intro k hk
    rw [initMass, if_neg]
    rintro ⟨hz, -⟩
    exact hnz k hk hz
  exact ⟨h0, Finset.sum_eq_zero h0,
    sumCurrent_of_allZero K b s (d * (vL - vR)) sigma 1 _ h0,
    getTrialLikelihood_of_initZero K RT choice vL vR d sigma ts s b hmax h0⟩

/-- Witness for C10: `barrier = 1`, `stateStep = 0.3` (which does not evenly
partition `2*barrier`): the eight grid states `-1, -0.7, -0.4, -0.1, 0.2,
0.5, 0.8, 1.1` all miss zero even after snapping, and the run divides `0/0`
and returns likelihood `0`. -/
theorem renormalization_zero_over_zero_witness :
    (∀ k ∈ Finset.range (numStates 1 (3/10)), state 1 (3/10) k ≠ 0) ∧
      sumCurrent constKernel 1 (3/10) ((3/500) * (1 - 2)) (2/25) 1
        (initMass 1 (3/10)) = 0 ∧
      getTrialLikelihood constKernel 20 1 1 2 (3/500) (2/25) 10 (3/10) 1 =
        Except.ok 0 := by
  have hn : numStates 1 (3/10) = 8 := by
    rw [numStates_eq_of 1 (3/10) 8 (by norm_num) (by norm_num)]
    rfl
  have hnz : ∀ k ∈ Finset.range (numStates 1 (3/10)), state 1 (3/10) k ≠ 0 := by
    rw [hn]
    intro k hk
    fin_cases hk <;> norm_num [state, snap, rawState]
  exact ⟨hnz,
    (renormalization_zero_over_zero constKernel 20 1 1 2 (3/500) (2/25) 10
      (3/10) 1 hnz (by norm_num)).2.2.1,
    (renormalization_zero_over_zero constKernel 20 1 1 2 (3/500) (2/25) 10
      (3/10) 1 hnz (by norm_num)).2.2.2⟩

/-! ## Shared lemmas: nonnegativity and mass accounting of the loop -/

lemma loopState_succ (K : Kernel) (b s mean sigma : ℚ) (t : ℕ) :
    loopState K b s mean sigma (t + 1) =
      ddmStep K b s mean sigma (t + 1) (loopState K b s mean sigma t).mass :=
  rfl

lemma initMass_nonneg (b s : ℚ) (k : ℕ) : 0 ≤ initMass b s k := by
  rw [initMass]; split <;> norm_num

lemma massSum_nonneg (b s : ℚ) (P : ℕ → ℚ)
    (hP : ∀ k ∈ Finset.range (numStates b s), 0 ≤ P k) :
    0 ≤ massSum b s P :=
  Finset.sum_nonneg hP

lemma prNew_nonneg (K : Kernel) (b s mean sigma : ℚ) (hs : 0 ≤ s)
    (hpdf : ∀ x, 0 ≤ K.pdf x mean sigma) (t : ℕ) (P : ℕ → ℚ)
    (hP : ∀ k ∈ Finset.range (numStates b s), 0 ≤ P k) (i : ℕ) :
    0 ≤ prNew K b s mean sigma t P i := by
  rw [prNew]
  split
  · exact le_refl 0
  · exact mul_nonneg hs (Finset.sum_nonneg fun j hj =>
      mul_nonneg (hpdf _) (hP j hj))

lemma tempUp_nonneg (K : Kernel) (b s mean sigma : ℚ)
    (hcdf1 : ∀ x, K.cdf x mean sigma ≤ 1) (t : ℕ) (P : ℕ → ℚ)
    (hP : ∀ k ∈ Finset.range (numStates b s), 0 ≤ P k) :
    0 ≤ tempUp K b s mean sigma t P :=
  Finset.sum_nonneg fun i hi =>
    mul_nonneg (hP i hi) (sub_nonneg.mpr (hcdf1 _))

lemma tempDown_nonneg (K : Kernel) (b s mean sigma : ℚ)
    (hcdf0 : ∀ x, 0 ≤ K.cdf x mean sigma) (t : ℕ) (P : ℕ → ℚ)
    (hP : ∀ k ∈ Finset.range (numStates b s), 0 ≤ P k) :
    0 ≤ tempDown K b s mean sigma t P :=
  Finset.sum_nonneg fun i hi => mul_nonneg (hP i hi) (hcdf0 _)

lemma sumCurrent_nonneg (K : Kernel) (b s mean sigma : ℚ) (hs : 0 ≤ s)
    (hpdf : ∀ x, 0 ≤ K.pdf x mean sigma)
    (hcdf0 : ∀ x, 0 ≤ K.cdf x mean sigma)
    (hcdf1 : ∀ x, K.cdf x mean sigma ≤ 1) (t : ℕ) (P : ℕ → ℚ)
    (hP : ∀ k ∈ Finset.range (numStates b s), 0 ≤ P k) :
    0 ≤ sumCurrent K b s mean sigma t P :=
  add_nonneg
    (add_nonneg
      (massSum_nonneg b s _ fun i _ =>
        prNew_nonneg K b s mean sigma hs hpdf t P hP i)
      (tempUp_nonneg K b s mean sigma hcdf1 t P hP))
    (tempDown_nonneg K b s mean sigma hcdf0 t P hP)

lemma ddmStep_mass_nonneg (K : Kernel) (b s mean sigma : ℚ) (hs : 0 ≤ s)
    (hpdf : ∀ x, 0 ≤ K.pdf x mean sigma)
    (hcdf0 : ∀ x, 0 ≤ K.cdf x mean sigma)
    (hcdf1 : ∀ x, K.cdf x mean sigma ≤ 1) (t : ℕ) (P : ℕ → ℚ)
    (hP : ∀ k ∈ Finset.range (numStates b s), 0 ≤ P k) (k : ℕ) :
    0 ≤ (ddmStep K b s mean sigma t P).mass k :=
  div_nonneg
    (mul_nonneg (prNew_nonneg K b s mean sigma hs hpdf t P hP k)
      (massSum_nonneg b s P hP))
    (sumCurrent_nonneg K b s mean sigma hs hpdf hcdf0 hcdf1 t P hP)

lemma ddmStep_up_nonneg (K : Kernel) (b s mean sigma : ℚ) (hs : 0 ≤ s)
    (hpdf : ∀ x, 0 ≤ K.pdf x mean sigma)
    (hcdf0 : ∀ x, 0 ≤ K.cdf x mean sigma)
    (hcdf1 : ∀ x, K.cdf x mean sigma ≤ 1) (t : ℕ) (P : ℕ → ℚ)
    (hP : ∀ k ∈ Finset.range (numStates b s), 0 ≤ P k) :
    0 ≤ (ddmStep K b s mean sigma t P).up ∧
      0 ≤ (ddmStep K b s mean sigma t P).down :=
  ⟨div_nonneg
      (mul_nonneg (tempUp_nonneg K b s mean sigma hcdf1 t P hP)
        (massSum_nonneg b s P hP))
      (sumCurrent_nonneg K b s mean sigma hs hpdf hcdf0 hcdf1 t P hP),
    div_nonneg
      (mul_nonneg (tempDown_nonneg K b s mean sigma hcdf0 t P hP)
        (massSum_nonneg b s P hP))
      (sumCurrent_nonneg K b s mean sigma hs hpdf hcdf0 hcdf1 t P hP)⟩

/-- The renormalized step conserves the incoming mass exactly whenever the
denominator is nonzero: the three rescaled quantities total `sumIn`. -/
lemma ddmStep_total (K : Kernel) (b s mean sigma : ℚ) (t : ℕ) (P : ℕ → ℚ)
    (hsc : sumCurrent K b s mean sigma t P ≠ 0) :
    massSum b s (ddmStep K b s mean sigma t P).mass +
        (ddmStep K b s mean sigma t P).up +
        (ddmStep K b s mean sigma t P).down =
      massSum b s P := by
  have hmass : massSum b s (ddmStep K b s mean sigma t P).mass =
      massSum b s (prNew K b s mean sigma t P) * massSum b s P /
        sumCurrent K b s mean sigma t P := by
    simp only [ddmStep, massSum, Finset.sum_div, Finset.sum_mul]
  rw [hmass]
  show _ + tempUp K b s mean sigma t P * massSum b s P / _ +
      tempDown K b s mean sigma t P * massSum b s P / _ = _
  rw [div_add_div_same, div_add_div_same, ← add_mul, ← add_mul, ← sumCurrent,
    mul_comm, mul_div_assoc, div_self hsc, mul_one]

/-- Without assuming a nonzero denominator, the step cannot create mass:
either it conserves it, or (`sumCurrent = 0`, the junk-division case) it
returns all zeros. -/
lemma ddmStep_total_le (K : Kernel) (b s mean sigma : ℚ) (t : ℕ) (P : ℕ → ℚ)
    (hP : ∀ k ∈ Finset.range (numStates b s), 0 ≤ P k) :
    massSum b s (ddmStep K b s mean sigma t P).mass +
        (ddmStep K b s mean sigma t P).up +
        (ddmStep K b s mean sigma t P).down ≤
      massSum b s P := by
  by_cases hsc : sumCurrent K b s mean sigma t P = 0
  · have hz : ∀ x : ℚ, x * massSum b s P / sumCurrent K b s mean sigma t P = 0 :=
      fun x => by rw [hsc, div_zero]
    have hm : massSum b s (ddmStep K b s mean sigma t P).mass = 0 :=
      Finset.sum_eq_zero fun k _ => hz _
    rw [hm]
    show (0 : ℚ) + tempUp K b s mean sigma t P * massSum b s P / _ +
        tempDown K b s mean sigma t P * massSum b s P / _ ≤ _
    rw [hz, hz, add_zero, add_zero]
    exact massSum_nonneg b s P hP
  · exact le_of_eq (ddmStep_total K b s mean sigma t P hsc)

/-- When the run starts with exactly one unit of mass on at most one zero
state, the loop keeps every mass nonnegative and its running total bounded
by `1`. -/
lemma loop_nonneg (K : Kernel) (b s mean sigma : ℚ) (hs : 0 ≤ s)
    (hpdf : ∀ x, 0 ≤ K.pdf x mean sigma)
    (hcdf0 : ∀ x, 0 ≤ K.cdf x mean sigma)
    (hcdf1 : ∀ x, K.cdf x mean sigma ≤ 1) :
    ∀ t, (∀ k ∈ Finset.range (numStates b s),
        0 ≤ (loopState K b s mean sigma t).mass k) ∧
      0 ≤ (loopState K b s mean sigma t).up ∧
      0 ≤ (loopState K b s mean sigma t).down := by
  intro t
  induction t with
  | zero => exact ⟨fun k _ => initMass_nonneg b s k, le_refl 0, le_refl 0⟩
  | succ t ih =>
    refine ⟨fun k _ => ?_, ?_⟩
    · exact ddmStep_mass_nonneg K b s mean sigma hs hpdf hcdf0 hcdf1 (t + 1) _
        ih.1 k
    · exact ddmStep_up_nonneg K b s mean sigma hs hpdf hcdf0 hcdf1 (t + 1) _
        ih.1

lemma cumUp_zero (K : Kernel) (b s mean sigma : ℚ) :
    cumUp K b s mean sigma 0 = 0 := by
  simp [cumUp, loopState]

lemma cumDown_zero (K : Kernel) (b s mean sigma : ℚ) :
    cumDown K b s mean sigma 0 = 0 := by
  simp [cumDown, loopState]

lemma cumUp_succ (K : Kernel) (b s mean sigma : ℚ) (t : ℕ) :
    cumUp K b s mean sigma (t + 1) =
      cumUp K b s mean sigma t + (loopState K b s mean sigma (t + 1)).up :=
  Finset.sum_range_succ _ _

lemma cumDown_succ (K : Kernel) (b s mean sigma : ℚ) (t : ℕ) :
    cumDown K b s mean sigma (t + 1) =
      cumDown K b s mean sigma t + (loopState K b s mean sigma (t + 1)).down :=
  Finset.sum_range_succ _ _

lemma loop_total_le (K : Kernel) (b s mean sigma : ℚ) (hs : 0 ≤ s)
    (hpdf : ∀ x, 0 ≤ K.pdf x mean sigma)
    (hcdf0 : ∀ x, 0 ≤ K.cdf x mean sigma)
    (hcdf1 : ∀ x, K.cdf x mean sigma ≤ 1)
    (hinit : massSum b s (initMass b s) ≤ 1) :
    ∀ t, massSum b s (loopState K b s mean sigma t).mass +
        cumUp K b s mean sigma t + cumDown K b s mean sigma t ≤ 1 := by
  intro t
  induction t with
  | zero =>
    rw [cumUp_zero, cumDown_zero]
    show massSum b s (initMass b s) + 0 + 0 ≤ 1
    simpa using hinit
  | succ t ih =>
    have hstep := ddmStep_total_le K b s mean sigma (t + 1) _
      (loop_nonneg K b s mean sigma hs hpdf hcdf0 hcdf1 t).1
    rw [cumUp_succ, cumDown_succ, loopState_succ]
    linarith [ih]

/-- Each per-step crossing mass is bounded by `1`. -/
lemma loop_up_le_one (K : Kernel) (b s mean sigma : ℚ) (hs : 0 ≤ s)
    (hpdf : ∀ x, 0 ≤ K.pdf x mean sigma)
    (hcdf0 : ∀ x, 0 ≤ K.cdf x mean sigma)
    (hcdf1 : ∀ x, K.cdf x mean sigma ≤ 1)
    (hinit : massSum b s (initMass b s) ≤ 1) (t : ℕ) :
    (loopState K b s mean sigma t).up ≤ 1 ∧
      (loopState K b s mean sigma t).down ≤ 1 := by
  have htot := loop_total_le K b s mean sigma hs hpdf hcdf0 hcdf1 hinit t
  have hnn := fun u => loop_nonneg K b s mean sigma hs hpdf hcdf0 hcdf1 u
  have hmass : 0 ≤ massSum b s (loopState K b s mean sigma t).mass :=
    massSum_nonneg b s _ (hnn t).1
  have hupcum : (loopState K b s mean sigma t).up ≤ cumUp K b s mean sigma t :=
    Finset.single_le_sum (f := fun u => (loopState K b s mean sigma u).up)
      (fun u _ => (hnn u).2.1) (Finset.self_mem_range_succ t)
  have hdowncum : (loopState K b s mean sigma t).down ≤
      cumDown K b s mean sigma t :=
    Finset.single_le_sum (f := fun u => (loopState K b s mean sigma u).down)
      (fun u _ => (hnn u).2.2) (Finset.self_mem_range_succ t)
  have hcu : 0 ≤ cumUp K b s mean sigma t :=
    Finset.sum_nonneg fun u _ => (hnn u).2.1
  have hcd : 0 ≤ cumDown K b s mean sigma t :=
    Finset.sum_nonneg fun u _ => (hnn u).2.2
  constructor <;> linarith

/-- With at most one zero grid state and a positive barrier, the initial mass
totals at most `1`. -/
lemma massSum_init_le_one (b s : ℚ)
    (hcard : ((Finset.range (numStates b s)).filter
        fun k => state b s k = 0).card ≤ 1) :
    massSum b s (initMass b s) ≤ 1 := by
  have hle : massSum b s (initMass b s) ≤
      ∑ k ∈ Finset.range (numStates b s),
        (if state b s k = 0 then (1 : ℚ) else 0) := by
    apply Finset.sum_le_sum
    intro k _
    rw [initMass]
    by_cases hz : state b s k = 0
    · simp only [hz, if_pos rfl]
      split <;> norm_num
    · simp [hz]
  have hsum : (∑ k ∈ Finset.range (numStates b s),
      (if state b s k = 0 then (1 : ℚ) else 0)) =
        ((Finset.range (numStates b s)).filter
          fun k => state b s k = 0).card := by
    rw [Finset.sum_boole]
  calc massSum b s (initMass b s) ≤ _ := hle
    _ = _ := hsum
    _ ≤ 1 := by exact_mod_cast hcard

/-! ## Strict positivity and exact conservation -/

lemma prNew_pos_at_zero (K : Kernel) (b s mean sigma : ℚ) (hb : 0 < b)
    (hs : 0 < s) (hpdf : ∀ x, 0 < K.pdf x mean sigma) (t : ℕ) (P : ℕ → ℚ)
    (hP : ∀ k ∈ Finset.range (numStates b s), 0 ≤ P k) (k0 : ℕ)
    (hk0 : k0 ∈ Finset.range (numStates b s)) (hz : state b s k0 = 0)
    (hpos : 0 < P k0) :
    0 < prNew K b s mean sigma t P k0 := by
  rw [prNew, if_neg]
  · apply mul_pos hs
    apply Finset.sum_pos'
    · intro j hj
      exact mul_nonneg (le_of_lt (hpdf _)) (hP j hj)
    · exact ⟨k0, hk0, mul_pos (hpdf _) hpos⟩
  · rw [barrierUp_eq, barrierDown_eq, hz]
    push_neg
    constructor <;> linarith

lemma sumCurrent_pos (K : Kernel) (b s mean sigma : ℚ) (hb : 0 < b)
    (hs : 0 < s) (hpdf : ∀ x, 0 < K.pdf x mean sigma)
    (hcdf0 : ∀ x, 0 ≤ K.cdf x mean sigma)
    (hcdf1 : ∀ x, K.cdf x mean sigma ≤ 1) (t : ℕ) (P : ℕ → ℚ)
    (hP : ∀ k ∈ Finset.range (numStates b s), 0 ≤ P k) (k0 : ℕ)
    (hk0 : k0 ∈ Finset.range (numStates b s)) (hz : state b s k0 = 0)
    (hpos : 0 < P k0) :
    0 < sumCurrent K b s mean sigma t P := by
  have hpdf0 : ∀ x, 0 ≤ K.pdf x mean sigma := fun x => le_of_lt (hpdf x)
  have h1 : 0 < massSum b s (prNew K b s mean sigma t P) :=
    lt_of_lt_of_le
      (prNew_pos_at_zero K b s mean sigma hb hs hpdf t P hP k0 hk0 hz hpos)
      (Finset.single_le_sum
        (fun i hi => prNew_nonneg K b s mean sigma (le_of_lt hs) hpdf0 t P hP i)
        hk0)
  have h2 := tempUp_nonneg K b s mean sigma hcdf1 t P hP
  have h3 := tempDown_nonneg K b s mean sigma hcdf0 t P hP
  rw [sumCurrent]
  linarith

/-- With a positive barrier, the barrier filter in the initial mass is
inactive, so `initMass` is the indicator of the zero state. -/
lemma initMass_eq_boole (b s : ℚ) (hb : 0 < b) (k : ℕ) :
    initMass b s k = if state b s k = 0 then 1 else 0 := by
  rw [initMass]
  by_cases hz : state b s k = 0
  · have hin : ¬(barrierUp b 0 < state b s k ∨
        state b s k < barrierDown b 0) := by
      rw [barrierUp_eq, barrierDown_eq, hz]
      push_neg
      constructor <;> linarith
    rw [if_pos ⟨hz, hin⟩, if_pos hz]
  · rw [if_neg fun h => hz h.1, if_neg hz]

lemma massSum_init_eq_one (b s : ℚ) (hb : 0 < b)
    (hcard : ((Finset.range (numStates b s)).filter
        fun k => state b s k = 0).card = 1) :
    massSum b s (initMass b s) = 1 := by
  have h : massSum b s (initMass b s) =
      ∑ k ∈ Finset.range (numStates b s),
        (if state b s k = 0 then (1 : ℚ) else 0) :=
    Finset.sum_congr rfl fun k _ => initMass_eq_boole b s hb k
  rw [h, Finset.sum_boole, hcard]
  norm_num

/-- The exact-conservation loop invariant: under a positive kernel density,
bounded kernel distribution, positive barrier, positive state step, and a
unique zero state, every loop state carries total mass (live plus absorbed)
exactly `1`, stays nonnegative, and keeps strictly positive mass at the zero
state. -/
lemma conservation_inv (K : Kernel) (b s mean sigma : ℚ) (hb : 0 < b)
    (hs : 0 < s)
    (hcard : ((Finset.range (numStates b s)).filter
        fun k => state b s k = 0).card = 1)
    (hpdf : ∀ x, 0 < K.pdf x mean sigma)
    (hcdf0 : ∀ x, 0 ≤ K.cdf x mean sigma)
    (hcdf1 : ∀ x, K.cdf x mean sigma ≤ 1) :
    ∀ t, (massSum b s (loopState K b s mean sigma t).mass +
          cumUp K b s mean sigma t + cumDown K b s mean sigma t = 1) ∧
      (∀ k ∈ Finset.range (numStates b s),
        0 ≤ (loopState K b s mean sigma t).mass k) ∧
      (∃ k0 ∈ Finset.range (numStates b s), state b s k0 = 0 ∧
        0 < (loopState K b s mean sigma t).mass k0) := by
  have hpdf0 : ∀ x, 0 ≤ K.pdf x mean sigma := fun x => le_of_lt (hpdf x)
  have hs0 : 0 ≤ s := le_of_lt hs
  obtain ⟨k0, hfil⟩ := Finset.card_eq_one.mp hcard
  have hk0mem : k0 ∈ (Finset.range (numStates b s)).filter
      fun k => state b s k = 0 := by
    rw [hfil]; exact Finset.mem_singleton_self k0
  obtain ⟨hk0, hz0⟩ := Finset.mem_filter.mp hk0mem
  intro t
  induction t with
  | zero =>
    refine ⟨?_, fun k _ => initMass_nonneg b s k, ⟨k0, hk0, hz0, ?_⟩⟩
    · rw [cumUp_zero, cumDown_zero, add_zero, add_zero]
      exact massSum_init_eq_one b s hb hcard
    · show 0 < initMass b s k0
      rw [initMass_eq_boole b s hb, if_pos hz0]
      norm_num
  | succ t ih =>
    obtain ⟨htot, hP, j0, hj0, hzj0, hposj0⟩ := ih
    have hsc : 0 < sumCurrent K b s mean sigma (t + 1)
        (loopState K b s mean sigma t).mass :=
      sumCurrent_pos K b s mean sigma hb hs hpdf hcdf0 hcdf1 (t + 1) _
        hP j0 hj0 hzj0 hposj0
    have hSpos : 0 < massSum b s (loopState K b s mean sigma t).mass :=
      lt_of_lt_of_le hposj0 (Finset.single_le_sum hP hj0)
    refine ⟨?_, ?_, ⟨j0, hj0, hzj0, ?_⟩⟩
    · rw [cumUp_succ, cumDown_succ, loopState_succ]
      have hstep := ddmStep_total K b s mean sigma (t + 1) _ hsc.ne'
      linarith
    · rw [loopState_succ]
      exact fun k _ => ddmStep_mass_nonneg K b s mean sigma hs0 hpdf0 hcdf0
        hcdf1 (t + 1) _ hP k
    · rw [loopState_succ]
      show 0 < prNew K b s mean sigma (t + 1) _ j0 * massSum b s _ /
        sumCurrent K b s mean sigma (t + 1) _
      exact div_pos
        (mul_pos (prNew_pos_at_zero K b s mean sigma hb hs hpdf (t + 1) _
          hP j0 hj0 hzj0 hposj0) hSpos) hsc

/-! ## C1: joint renormalization and mass conservation -/

/-- C1: at every time step the renormalization rescales the new mass vector
and the two crossing masses by the single factor `sumIn / sumCurrent`
(definition `ddmStep`), so that their total equals the total mass present
before the step (first conjunct); consequently the running total — live mass
plus cumulative up- and down-crossing mass — equals `1` exactly at every time
step (second conjunct), hence certainly within `1e-6` (third conjunct).
Hypotheses spell out trial/model validity: positive barrier and state step,
a unique zero grid state (true of the defaults `barrier = 1`,
`stateStep = 0.1`, and presupposed by the spec's initialization step), and
the Gaussian facts for `scipy.stats.norm`: `pdf > 0`, `0 ≤ cdf ≤ 1`. -/
theorem conservation_invariant (K : Kernel) (b s mean sigma : ℚ)
    (hb : 0 < b) (hs : 0 < s)
    (hcard : ((Finset.range (numStates b s)).filter
        fun k => state b s k = 0).card = 1)
    (hpdf : ∀ x, 0 < K.pdf x mean sigma)
    (hcdf0 : ∀ x, 0 ≤ K.cdf x mean sigma)
    (hcdf1 : ∀ x, K.cdf x mean sigma ≤ 1) :
    ∀ t,
      (massSum b s (loopState K b s mean sigma (t + 1)).mass +
          (loopState K b s mean sigma (t + 1)).up +
          (loopState K b s mean sigma (t + 1)).down =
        massSum b s (loopState K b s mean sigma t).mass) ∧
      (massSum b s (loopState K b s mean sigma t).mass +
          cumUp K b s mean sigma t + cumDown K b s mean sigma t = 1) ∧
      |massSum b s (loopState K b s mean sigma t).mass +
          cumUp K b s mean sigma t + cumDown K b s mean sigma t - 1| ≤
        1/1000000 := by
  have hinv := conservation_inv K b s mean sigma hb hs hcard hpdf hcdf0 hcdf1
  intro t
  obtain ⟨htot, hP, j0, hj0, hzj0, hposj0⟩ := hinv t
  refine ⟨?_, htot, ?_⟩
  · have hsc : 0 < sumCurrent K b s mean sigma (t + 1)
        (loopState K b s mean sigma t).mass :=
      sumCurrent_pos K b s mean sigma hb hs hpdf hcdf0 hcdf1 (t + 1) _
        hP j0 hj0 hzj0 hposj0
    rw [loopState_succ]
    exact ddmStep_total K b s mean sigma (t + 1) _ hsc.ne'
  · rw [htot]
    norm_num

/-- Evaluation helper: with `barrier = 1` and `stateStep = 1` the grid is
`-1, 0, 1` and exactly one state is zero. -/
lemma filter_zero_card_b1_s1 :
    ((Finset.range (numStates 1 1)).filter fun k => state 1 1 k = 0).card = 1 := by
  have hn : numStates 1 1 = 3 := by
    rw [numStates_eq_of 1 1 3 (by norm_num) (by norm_num)]
    rfl
  rw [hn]
  have hfil : (Finset.range 3).filter (fun k => state 1 1 k = 0) = {1} := by
    ext k
    simp only [Finset.mem_filter, Finset.mem_range, Finset.mem_singleton]
    constructor
    · rintro ⟨hk, hz⟩
      interval_cases k
      · exfalso; revert hz; norm_num [state, snap, rawState]
      · rfl
      · exfalso; revert hz; norm_num [state, snap, rawState]
    · rintro rfl
      refine ⟨by norm_num, ?_⟩
      norm_num [state, snap, rawState]
  rw [hfil]
  rfl

/-- Witness for C1: constant kernel, `barrier = 1`, `stateStep = 1`,
`mean = 0`, `sigma = 1`, checked at time step `1`. -/
theorem conservation_invariant_witness :
    (((Finset.range (numStates 1 1)).filter
        fun k => state 1 1 k = 0).card = 1) ∧
      massSum 1 1 (loopState constKernel 1 1 0 1 1).mass +
        cumUp constKernel 1 1 0 1 1 + cumDown constKernel 1 1 0 1 1 = 1 :=
  ⟨filter_zero_card_b1_s1,
    (conservation_invariant constKernel 1 1 0 1 (by norm_num) (by norm_num)
      filter_zero_card_b1_s1 (fun x => by norm_num [constKernel])
      (fun x => by norm_num [constKernel])
      (fun x => by norm_num [constKernel]) 1).2.1⟩

/-! ## C2: likelihood selection and bounds -/

/-- C2: for a valid trial (`maxTime ≥ 1`, nonnegative state step, at most one
zero grid state — true of the defaults and required by the spec's StateSpace
invariant) and a kernel with `pdf ≥ 0`, `0 ≤ cdf ≤ 1`, the function returns
`Except.ok` of exactly `likSelect choice up down`: the up-crossing mass at
the final time step for choice `-1`, the down-crossing mass for choice `+1`,
truncated to `0` whenever the selected mass is not strictly positive — no
error is raised for a zero value — and the returned likelihood always
satisfies `0 ≤ likelihood ≤ 1`. -/
theorem likelihood_selection_and_bounds (K : Kernel) (RT : ℕ) (choice : Int)
    (vL vR d sigma : ℚ) (ts : ℕ) (s b : ℚ) (hmax : RT / ts ≠ 0) (hs : 0 ≤ s)
    (hcard : ((Finset.range (numStates b s)).filter
        fun k => state b s k = 0).card ≤ 1)
    (hpdf : ∀ x, 0 ≤ K.pdf x (d * (vL - vR)) sigma)
    (hcdf0 : ∀ x, 0 ≤ K.cdf x (d * (vL - vR)) sigma)
    (hcdf1 : ∀ x, K.cdf x (d * (vL - vR)) sigma ≤ 1) :
    getTrialLikelihood K RT choice vL vR d sigma ts s b =
        Except.ok (likSelect choice
          (loopState K b s (d * (vL - vR)) sigma (RT / ts - 1)).up
          (loopState K b s (d * (vL - vR)) sigma (RT / ts - 1)).down) ∧
      0 ≤ likSelect choice
          (loopState K b s (d * (vL - vR)) sigma (RT / ts - 1)).up
          (loopState K b s (d * (vL - vR)) sigma (RT / ts - 1)).down ∧
      likSelect choice
          (loopState K b s (d * (vL - vR)) sigma (RT / ts - 1)).up
          (loopState K b s (d * (vL - vR)) sigma (RT / ts - 1)).down ≤ 1 := by
  have hinit := massSum_init_le_one b s hcard
  have hub := loop_up_le_one K b s (d * (vL - vR)) sigma hs hpdf hcdf0 hcdf1
    hinit (RT / ts - 1)
  refine ⟨by simp [getTrialLikelihood, hmax], ?_, ?_⟩
  · rw [likSelect]
    split_ifs with h1 h2 h3 h4
    exacts [le_of_lt h2, le_refl 0, le_of_lt h4, le_refl 0, le_refl 0]
  · rw [likSelect]
    split_ifs with h1 h2 h3 h4
    exacts [hub.1, by norm_num, hub.2, by norm_num, by norm_num]

/-- Witness for C2: constant kernel, `RT = 20`, `timeStep = 10`,
`choice = -1`, `d = 0`, `barrier = 1`, `stateStep = 1`. -/
theorem likelihood_selection_and_bounds_witness :
    (((Finset.range (numStates 1 1)).filter
        fun k => state 1 1 k = 0).card ≤ 1) ∧
      likSelect (-1)
        (loopState constKernel 1 1 (0 * (0 - 0)) 1 (20 / 10 - 1)).up
        (loopState constKernel 1 1 (0 * (0 - 0)) 1 (20 / 10 - 1)).down ≤ 1 :=
  ⟨le_of_eq filter_zero_card_b1_s1,
    (likelihood_selection_and_bounds constKernel 20 (-1) 0 0 0 1 10 1 1
      (by norm_num) (by norm_num) (le_of_eq filter_zero_card_b1_s1)
      (fun x => by norm_num [constKernel])
      (fun x => by norm_num [constKernel])
      (fun x => by norm_num [constKernel])).2.2⟩

/-! ## C8: the simulation loop has no timeout -/

lemma RDV_zero_stream (t : ℕ) : RDV (fun _ => 0) t = 0 := by
  simp [RDV]

/-- On the all-zero increment stream the loop never exits, at any fuel. -/
lemma simTrial_zero_stream : ∀ fuel t : ℕ,
    simTrial 1 10 (fun _ => 0) t fuel = none := by
  intro fuel
  induction fuel with
  | zero => intro t; norm_num [simTrial, RDV_zero_stream]
  | succ fuel ih => intro t; norm_num [simTrial, RDV_zero_stream, ih]

/-- Counterexample to C8: the trial loop of `run_simulations` enforces no
maximum duration whatsoever (`while True`, `ddm.py` line 203) and the source
defines no `SimulationTimeout`: on an increment stream that never moves the
evidence (all draws `0`), after 10000 steps — past any purported configured
maximum — the loop is still running (`none`: no trial produced) and no error
of any kind has been raised; the embedding's return type has no error case
because the source has no failure path. -/
theorem simulation_timeout_not_raised_cx :
    simTrial 1 10 (fun _ => 0) 0 10000 = none :=
  simTrial_zero_stream 10000 0

/-- C8 amended: the trial-simulation loop in `run_simulations` has no
iteration cap and no `SimulationTimeout`: truncated after any finite number
of barrier checks, it has produced no outcome (and no error) exactly when
the evidence stayed strictly inside both barriers at every check so far —
the loop can only exit by the evidence reaching a barrier. -/
theorem simulation_no_timeout (b : ℚ) (ts : ℕ) (eps : ℕ → ℚ) (t fuel : ℕ) :
    simTrial b ts eps t fuel = none ↔
      ∀ u, u ≤ fuel → -b < RDV eps (t + u) ∧ RDV eps (t + u) < b := by
  induction fuel generalizing t with
  | zero =>
    simp only [simTrial]
    by_cases h1 : b ≤ RDV eps t
    · rw [if_pos h1]
      constructor
      · intro h; cases h
      · intro h
        exfalso
        have := (h 0 (le_refl 0)).2
        rw [add_zero] at this
        linarith
    · rw [if_neg h1]
      by_cases h2 : RDV eps t ≤ -b
      · rw [if_pos h2]
        constructor
        · intro h; cases h
        · intro h
          exfalso
          have := (h 0 (le_refl 0)).1
          rw [add_zero] at this
          linarith
      · rw [if_neg h2]
        constructor
        · intro _ u hu
          have hu0 : u = 0 := Nat.le_zero.mp hu
          subst hu0
          rw [add_zero]
          exact ⟨not_le.mp h2, not_le.mp h1⟩
        · intro _; rfl
  | succ fuel ih =>
    simp only [simTrial]
    by_cases h1 : b ≤ RDV eps t
    · rw [if_pos h1]
      constructor
      · intro h; cases h
      · intro h
        exfalso
        have := (h 0 (Nat.zero_le _)).2
        rw [add_zero] at this
        linarith
    · rw [if_neg h1]
      by_cases h2 : RDV eps t ≤ -b
      · rw [if_pos h2]
        constructor
        · intro h; cases h
        · intro h
          exfalso
          have := (h 0 (Nat.zero_le _)).1
          rw [add_zero] at this
          linarith
      · rw [if_neg h2, ih (t + 1)]
        constructor
        · intro h u hu
          cases u with
          | zero =>
            rw [add_zero]
            exact ⟨not_le.mp h2, not_le.mp h1⟩
          | succ v =>
            have hv : v ≤ fuel := Nat.succ_le_succ_iff.mp hu
            have hres := h v hv
            rw [show t + (v + 1) = t + 1 + v by omega]
            exact hres
        · intro h u hu
          have hres := h (u + 1) (Nat.succ_le_succ hu)
          rw [show t + 1 + u = t + (u + 1) by omega]
          exact hres

/-! ## C9: structure of the state grid -/

/-- Counterexample to C9: with `barrier = 1 > 0` and `stateStep = 2/3 > 0`
(which even partitions `2*barrier` into three steps) the accepted grid
`-1, -1/3, 1/3, 1` contains no level equal to `0`; and with `barrier = 1`,
`stateStep = 1/2000 > 0` the snapping rule zeroes the three levels nearest
the origin, so entries `1999` and `2000` are equal and the grid is not
strictly increasing. -/
theorem state_grid_cx :
    (∀ k ∈ Finset.range (numStates 1 (2/3)), state 1 (2/3) k ≠ 0) ∧
      state 1 (1/2000) 1999 = state 1 (1/2000) 2000 ∧
      1999 < 2000 ∧ 2000 < numStates 1 (1/2000) := by
  have hn4 : numStates 1 (2/3) = 4 := by
    rw [numStates_eq_of 1 (2/3) 4 (by norm_num) (by norm_num)]
    rfl
  have hn4001 : numStates 1 (1/2000) = 4001 := by
    rw [numStates_eq_of 1 (1/2000) 4001 (by norm_num) (by norm_num)]
    rfl
  refine ⟨?_, ?_, by norm_num, by rw [hn4001]; norm_num⟩
  · rw [hn4]
    intro k hk
    fin_cases hk <;> norm_num [state, snap, rawState]
  · norm_num [state, snap, rawState]

/-- C9 amended: the properties hold once `stateStep` additionally divides
`barrier` itself (`barrier = m * stateStep`, so a grid level sits exactly at
the origin — even partition of `2*barrier` alone does not guarantee this)
and `stateStep ≥ 0.001` (so the snapping rule touches only the exact-zero
level): then the grid has exactly `2*barrier/stateStep + 1` entries, its
middle entry `m` equals exactly `0`, it is strictly increasing, and it is
symmetric about zero. -/
theorem state_grid_structure (b s : ℚ) (m : ℕ) (hm : 1 ≤ m)
    (hb : b = (m : ℚ) * s) (hs : 1/1000 ≤ s) :
    numStates b s = 2 * m + 1 ∧
      ((numStates b s : ℚ) = 2 * b / s + 1) ∧
      state b s m = 0 ∧
      (∀ j k : ℕ, j < k → k < numStates b s → state b s j < state b s k) ∧
      (∀ k : ℕ, k ≤ 2 * m → state b s (2 * m - k) = -(state b s k)) := by
  have hs0 : 0 < s := lt_of_lt_of_le (by norm_num) hs
  have heq : (2 * b + s) / s = ((2 * m + 1 : ℕ) : ℚ) := by
    rw [hb]
    push_cast
    field_simp
    ring
  have hn : numStates b s = 2 * m + 1 := by
    rw [numStates_eq_of b s ((2 * m + 1 : ℕ) : ℤ) ?_ ?_]
    · exact Int.toNat_natCast _
    · rw [heq]
      push_cast
      linarith
    · rw [heq]
      push_cast
      linarith
  have hraw : ∀ k : ℕ, rawState b s k = ((k : ℚ) - m) * s := by
    intro k
    rw [rawState, hb]
    ring
  have hstate : ∀ k : ℕ, state b s k = ((k : ℚ) - m) * s := by
    intro k
    rw [state, hraw]
    by_cases hk : k = m
    · subst hk
      norm_num [snap]
    · rw [snap, if_neg]
      rintro ⟨hlo, hhi⟩
      rcases Nat.lt_trichotomy k m with hlt | hmid | hgt
      · have hk1 : (k : ℚ) + 1 ≤ (m : ℚ) := by exact_mod_cast hlt
        have hle : ((k : ℚ) - m) * s ≤ (-1) * s := by
          apply mul_le_mul_of_nonneg_right _ (le_of_lt hs0)
          linarith
        linarith
      · exact hk hmid
      · have hk1 : (m : ℚ) + 1 ≤ (k : ℚ) := by exact_mod_cast hgt
        have hle : 1 * s ≤ ((k : ℚ) - m) * s := by
          apply mul_le_mul_of_nonneg_right _ (le_of_lt hs0)
          linarith
        linarith
  refine ⟨hn, ?_, ?_, ?_, ?_⟩
  · rw [hn, hb]
    push_cast
    field_simp
    ring
  · rw [hstate]
    simp
  · intro j k hjk _
    rw [hstate, hstate]
    have hc : (j : ℚ) < (k : ℚ) := by exact_mod_cast hjk
    apply mul_lt_mul_of_pos_right _ hs0
    linarith
  · intro k hk
    rw [hstate, hstate, Nat.cast_sub hk]
    push_cast
    ring

/-- Witness for C9 (amended): `barrier = 1`, `stateStep = 1/2`, `m = 2`:
five states `-1, -1/2, 0, 1/2, 1` with the middle one exactly zero. -/
theorem state_grid_structure_witness :
    ((1 : ℕ) ≤ 2) ∧ ((1 : ℚ) = (2 : ℕ) * (1/2 : ℚ)) ∧
      ((1/1000 : ℚ) ≤ 1/2) ∧ numStates 1 (1/2) = 2 * 2 + 1 ∧
      state 1 (1/2) 2 = 0 :=
  ⟨by norm_num, by norm_num, by norm_num,
    (state_grid_structure 1 (1/2) 2 (by norm_num) (by norm_num)
      (by norm_num)).1,
    (state_grid_structure 1 (1/2) 2 (by norm_num) (by norm_num)
      (by norm_num)).2.2.1⟩

/-! ## C7: reflection symmetry of the drift-free engine -/

lemma snap_neg (x : ℚ) : snap (-x) = -snap x := by
  rw [snap, snap]
  by_cases h : -(1/1000) < x ∧ x < 1/1000
  · rw [if_pos h, if_pos ⟨by linarith [h.2], by linarith [h.1]⟩]
    norm_num
  · rw [if_neg h, if_neg]
    intro hcon
    exact h ⟨by linarith [hcon.2], by linarith [hcon.1]⟩

/-- On an evenly partitioned grid (`2*barrier = m*stateStep`) the snapped
states are antisymmetric under the index reflection `k ↦ m - k`. -/
lemma state_reflect (b s : ℚ) (m : ℕ) (hm : 2 * b = (m : ℚ) * s) (k : ℕ)
    (hk : k ≤ m) : state b s (m - k) = -(state b s k) := by
  have hraw : rawState b s (m - k) = -(rawState b s k) := by
    rw [rawState, rawState, Nat.cast_sub hk]
    linear_combination -hm
  rw [state, state, hraw, snap_neg]

lemma numStates_even_partition (b s : ℚ) (hs : 0 < s) (m : ℕ)
    (hm : 2 * b = (m : ℚ) * s) : numStates b s = m + 1 := by
  have heq : (2 * b + s) / s = (m : ℚ) + 1 := by
    rw [div_eq_iff hs.ne']
    linear_combination hm
  rw [numStates_eq_of b s ((m + 1 : ℕ) : ℤ) ?_ ?_]
  · exact Int.toNat_natCast _
  · rw [heq]
    push_cast
    linarith
  · rw [heq]
    push_cast
    linarith

lemma initMass_reflect (b s : ℚ) (m : ℕ) (hm : 2 * b = (m : ℚ) * s) (k : ℕ)
    (hk : k ≤ m) : initMass b s (m - k) = initMass b s k := by
  rw [initMass, initMass, state_reflect b s m hm k hk, barrierUp_eq,
    barrierDown_eq]
  by_cases hz : state b s k = 0
  · rw [hz]
    simp only [neg_zero]
  · rw [if_neg, if_neg]
    · exact fun h => hz h.1
    · exact fun h => hz (neg_eq_zero.mp h.1)

lemma sum_range_reflect' (f : ℕ → ℚ) (m : ℕ) :
    ∑ j ∈ Finset.range (m + 1), f (m - j) =
      ∑ j ∈ Finset.range (m + 1), f j := by
  have h := Finset.sum_range_reflect f (m + 1)
  simpa using h

/-- The un-renormalized propagated mass inherits the reflection symmetry of
its input when the drift-free kernel density is even. -/
lemma prNew_reflect (K : Kernel) (b s sigma : ℚ) (m : ℕ)
    (hm : 2 * b = (m : ℚ) * s) (hn : numStates b s = m + 1)
    (hpdf : ∀ x, K.pdf x 0 sigma = K.pdf (-x) 0 sigma) (t : ℕ) (P : ℕ → ℚ)
    (hP : ∀ k ≤ m, P (m - k) = P k) (k : ℕ) (hk : k ≤ m) :
    prNew K b s 0 sigma t P (m - k) = prNew K b s 0 sigma t P k := by
  rw [prNew, prNew, state_reflect b s m hm k hk, barrierUp_eq,
    barrierDown_eq]
  have hcond : (b ≤ -state b s k ∨ -state b s k ≤ -b) ↔
      (b ≤ state b s k ∨ state b s k ≤ -b) := by
    constructor
    · rintro (h | h)
      · right; linarith
      · left; linarith
    · rintro (h | h)
      · right; linarith
      · left; linarith
  rw [if_congr hcond rfl rfl]
  by_cases hc : b ≤ state b s k ∨ state b s k ≤ -b
  · rw [if_pos hc, if_pos hc]
  · rw [if_neg hc, if_neg hc]
    congr 1
    rw [hn, ← sum_range_reflect'
      (fun j => K.pdf (-state b s k - state b s j) 0 sigma * P j) m]
    apply Finset.sum_congr rfl
    intro j hj
    have hjm : j ≤ m := Nat.lt_succ_iff.mp (Finset.mem_range.mp hj)
    rw [state_reflect b s m hm j hjm, hP j hjm,
      hpdf (state b s k - state b s j)]
    congr 2
    ring

/-- For a symmetric mass vector and a drift-free complement-symmetric kernel
distribution, the two crossing masses coincide. -/
lemma tempUp_eq_tempDown (K : Kernel) (b s sigma : ℚ) (m : ℕ)
    (hm : 2 * b = (m : ℚ) * s) (hn : numStates b s = m + 1)
    (hcdf : ∀ x, K.cdf (-x) 0 sigma = 1 - K.cdf x 0 sigma) (t : ℕ)
    (P : ℕ → ℚ) (hP : ∀ k ≤ m, P (m - k) = P k) :
    tempUp K b s 0 sigma t P = tempDown K b s 0 sigma t P := by
  rw [tempUp, tempDown, hn, ← sum_range_reflect'
    (fun i => P i * K.cdf (barrierDown b t - state b s i) 0 sigma) m]
  apply Finset.sum_congr rfl
  intro i hi
  have him : i ≤ m := Nat.lt_succ_iff.mp (Finset.mem_range.mp hi)
  rw [hP i him, state_reflect b s m hm i him, barrierUp_eq, barrierDown_eq]
  congr 1
  rw [show -b - -state b s i = -(b - state b s i) by ring,
    hcdf (b - state b s i)]

/-- The drift-free loop invariant: the mass vector stays symmetric under the
grid reflection and the up- and down-crossing masses stay equal. -/
lemma loop_symm (K : Kernel) (b s sigma : ℚ) (m : ℕ) (hs : 0 < s)
    (hm : 2 * b = (m : ℚ) * s)
    (hpdf : ∀ x, K.pdf x 0 sigma = K.pdf (-x) 0 sigma)
    (hcdf : ∀ x, K.cdf (-x) 0 sigma = 1 - K.cdf x 0 sigma) :
    ∀ t, (∀ k ≤ m, (loopState K b s 0 sigma t).mass (m - k) =
        (loopState K b s 0 sigma t).mass k) ∧
      (loopState K b s 0 sigma t).up = (loopState K b s 0 sigma t).down := by
  have hn := numStates_even_partition b s hs m hm
  intro t
  induction t with
  | zero => exact ⟨fun k hk => initMass_reflect b s m hm k hk, rfl⟩
  | succ t ih =>
    have hud := tempUp_eq_tempDown K b s sigma m hm hn hcdf (t + 1) _ ih.1
    constructor
    · intro k hk
      rw [loopState_succ]
      show prNew K b s 0 sigma (t + 1) _ (m - k) * massSum b s _ /
          sumCurrent K b s 0 sigma (t + 1) _ =
        prNew K b s 0 sigma (t + 1) _ k * massSum b s _ /
          sumCurrent K b s 0 sigma (t + 1) _
      rw [prNew_reflect K b s sigma m hm hn hpdf (t + 1) _ ih.1 k hk]
    · rw [loopState_succ]
      show tempUp K b s 0 sigma (t + 1) _ * massSum b s _ /
          sumCurrent K b s 0 sigma (t + 1) _ =
        tempDown K b s 0 sigma (t + 1) _ * massSum b s _ /
          sumCurrent K b s 0 sigma (t + 1) _
      rw [hud]

/-- C7: for every fixed reaction time and a drift-free model (`d = 0`, so the
mean increment `d*(valueLeft - valueRight)` is `0` regardless of the item
values), the likelihood returned for the upper-barrier choice (`-1`) equals
the likelihood returned for the lower-barrier choice (`+1`).  Hypotheses:
the grid evenly partitions `2*barrier` (the spec's StateSpace validity
contract) and the kernel has the Gaussian symmetries at zero mean — an even
density and a complement-symmetric distribution function. -/
theorem drift_free_symmetry (K : Kernel) (RT : ℕ) (vL vR sigma : ℚ)
    (ts : ℕ) (s b : ℚ) (m : ℕ) (hs : 0 < s)
    (hm : 2 * b = (m : ℚ) * s)
    (hpdf : ∀ x, K.pdf x 0 sigma = K.pdf (-x) 0 sigma)
    (hcdf : ∀ x, K.cdf (-x) 0 sigma = 1 - K.cdf x 0 sigma) :
    getTrialLikelihood K RT (-1) vL vR 0 sigma ts s b =
      getTrialLikelihood K RT 1 vL vR 0 sigma ts s b := by
  rw [getTrialLikelihood, getTrialLikelihood]
  by_cases hmax : RT / ts = 0
  · rw [if_pos hmax, if_pos hmax]
  · rw [if_neg hmax, if_neg hmax]
    have hzm : (0 : ℚ) * (vL - vR) = 0 := zero_mul _
    rw [hzm]
    have hsym := loop_symm K b s sigma m hs hm hpdf hcdf (RT / ts - 1)
    rw [hsym.2]
    norm_num [likSelect]

/-- Witness for C7: constant kernel, `RT = 30`, `timeStep = 10`,
`barrier = 1`, `stateStep = 1`, asymmetric item values `3 ≠ 5` but `d = 0`. -/
theorem drift_free_symmetry_witness :
    ((0 : ℚ) < 1) ∧ ((2 : ℚ) * 1 = ((2 : ℕ) : ℚ) * 1) ∧
      getTrialLikelihood constKernel 30 (-1) 3 5 0 2 10 1 1 =
        getTrialLikelihood constKernel 30 1 3 5 0 2 10 1 1 :=
  ⟨by norm_num, by norm_num,
    drift_free_symmetry constKernel 30 3 5 2 10 1 1 2 (by norm_num)
      (by norm_num) (fun x => rfl) (fun x => by norm_num [constKernel])⟩

end ADDM
